import Mathlib

/-!
# Verification of the boids telemetry / sweep pipeline

Shallow embedding of the analysis pipeline of the boids simulator
(`app.py`) and the parameter-sweep builder (`sweeps.py`).

Conventions of the embedding:
* Python floats are modelled as exact rationals (`ℚ`); the real-valued
  square-root heuristic is modelled over `ℝ`.
* A decoded base64 payload is modelled as its byte list (`List ℕ`, each
  byte `< 256`); absent / non-string / empty payloads are `Option.none`.
* A raised Python exception is modelled as `Except.error` carrying the
  message; `np.sqrt` of a negative argument yields a NaN marker.
-/

namespace BoidsApp

/-- Bytes to little-endian unsigned 16-bit values, as
`np.frombuffer(raw, dtype="<u2")` reads them: consecutive byte pairs
`b0, b1` become `b0 + 256 * b1`.  (A trailing odd byte cannot occur:
`np.frombuffer` rejects buffers whose size is not a multiple of 2.) -/
def bytesToU16 : List ℕ → List ℕ
  | b0 :: b1 :: rest => (b0 + 256 * b1) :: bytesToU16 rest
  | _ => []

/-- `reshape(-1, 2)`: group a flat list into consecutive pairs. -/
def pairUp {α : Type} : List α → List (α × α)
  | a :: b :: rest => (a, b) :: pairUp rest
  | _ => []

/-- `_decode_u16xy_base64_to_positions_px` from `app.py`:
decode the raw bytes as `<u2` values, require an even count, reshape to
`(n, 2)` and scale `x` by `max(1, w) / 65535` and `y` by
`max(1, h) / 65535`.  The two `Except.error` branches are the
`ValueError`s raised by `np.frombuffer` (odd byte count) and by the
explicit even-count check. -/
def decode_u16xy_base64_to_positions_px (raw : List ℕ) (w h : ℤ) :
    Except String (List (ℚ × ℚ)) :=
  if raw.length % 2 ≠ 0 then
    Except.error ("buffer size must be a multiple of element size")
  else
    let u16 := bytesToU16 raw
    if u16.length % 2 ≠ 0 then
      Except.error ("u16xy payload must have even count, got " ++ toString u16.length)
    else
      let denom_x : ℤ := max 1 w
      let denom_y : ℤ := max 1 h
      Except.ok ((pairUp u16).map (fun p =>
        ((p.1 : ℚ) / 65535 * denom_x, (p.2 : ℚ) / 65535 * denom_y)))

/-- The fields of an incoming telemetry dict that the decoder reads.
`data` is `none` when the payload is missing, not a string, or the empty
string (all of which `decode_boids_telemetry` treats alike); otherwise it
is the byte list the base64 string decodes to.  `w` / `h` default to 1
when absent (`telemetry.get("w", 1)`).  `n` is `none` when absent or not
an `int`. -/
structure Telemetry where
  format : Option String
  data : Option (List ℕ)
  w : Option ℤ
  h : Option ℤ
  n : Option ℤ

/-- The dict returned by `decode_boids_telemetry`. -/
structure DecodeResult where
  format : Option String
  positions_px : Option (List (ℚ × ℚ))
  positions_norm : Option (List (ℚ × ℚ))
  warning : Option String
  deriving DecidableEq

/-- The integrity-warning f-string of `decode_boids_telemetry`. -/
def integrity_warning (n_reported : ℤ) (decoded_n : ℕ) (raw_len : ℕ)
    (expected_len : ℤ) (w h : ℤ) : String :=
  "Telemetry integrity warning: decoded positions length does not match JS-reported n. "
    ++ "reported n=" ++ toString n_reported
    ++ ", decoded n=" ++ toString decoded_n
    ++ ", decoded_bytes=" ++ toString raw_len
    ++ ", expected_bytes=" ++ toString expected_len
    ++ ", w=" ++ toString w ++ ", h=" ++ toString h

/-- `decode_boids_telemetry` from `app.py`.  Unknown formats and absent /
empty payloads give the empty result; a malformed payload propagates the
decode exception; a reported `n` that is a non-negative integer different
from the decoded count gives absent positions plus the integrity warning;
otherwise the pixel positions and the elementwise normalisation by
`(max(1,w), max(1,h))` are returned. -/
def decode_boids_telemetry (t : Telemetry) : Except String DecodeResult :=
  let fmt := t.format
  if fmt ≠ some ("u16xy") then
    Except.ok ⟨fmt, none, none, none⟩
  else
    match t.data with
    | none => Except.ok ⟨fmt, none, none, none⟩
    | some raw =>
      let w := t.w.getD 1
      let h := t.h.getD 1
      match decode_u16xy_base64_to_positions_px raw w h with
      | Except.error e => Except.error e
      | Except.ok positions_px =>
        let wh : ℚ × ℚ := ((max 1 w : ℤ), (max 1 h : ℤ))
        let full : DecodeResult :=
          ⟨fmt, some positions_px,
            some (positions_px.map (fun p => (p.1 / wh.1, p.2 / wh.2))), none⟩
        match t.n with
        | some n_reported =>
          if 0 ≤ n_reported ∧ (positions_px.length : ℤ) ≠ n_reported then
            Except.ok ⟨fmt, none, none,
              some (integrity_warning n_reported positions_px.length raw.length
                (4 * n_reported) w h)⟩
          else
            Except.ok full
        | none => Except.ok full

/-- `MIN_SAMPLES = 3` from `app.py`: the fixed minimum-samples constant
shared by the radius heuristic and the clustering call. -/
def MIN_SAMPLES : ℤ := 3

/-- A Python float result that may be the quiet NaN `np.sqrt` produces on
a negative argument. -/
inductive FloatVal where
  | nan : FloatVal
  | val : ℝ → FloatVal

open Classical in
/-- `np.sqrt` on a float scalar: NaN for negative arguments, the real
square root otherwise. -/
noncomputable def np_sqrt (a : ℝ) : FloatVal :=
  if a < 0 then FloatVal.nan else FloatVal.val (Real.sqrt a)

/-- `calculate_eps` from `app.py`.  The extent arguments are intentionally
masked to `x = y = 1`; the radicand is `x*y*MIN_SAMPLES / (np.pi * n)`.
Python raises `ZeroDivisionError` when the divisor `np.pi * n` is zero,
i.e. exactly when `n = 0`; otherwise `np.sqrt` is applied to the
(possibly negative) quotient. -/
noncomputable def calculate_eps (n : ℤ) (_x _y : ℤ) : Except String FloatVal :=
  let x : ℤ := 1
  let y : ℤ := 1
  if n = 0 then
    Except.error ("ZeroDivisionError: float division by zero")
  else
    Except.ok (np_sqrt (((x : ℝ) * (y : ℝ) * (MIN_SAMPLES : ℝ)) / (Real.pi * (n : ℝ))))

/-- The two scalar order parameters `getShoalPhase` reads from the
telemetry dict. -/
structure ShoalTelemetry where
  polarization : ℚ
  rotationOrder : ℚ

/-- `getShoalPhase` from `app.py`: polar when `Op > 0.65 and Or < 0.35`,
milling when `Op < 0.35 and Or > 0.65`, swarm otherwise. -/
def getShoalPhase (t : ShoalTelemetry) : String :=
  if t.polarization > 0.65 ∧ t.rotationOrder < 0.35 then "polar"
  else if t.polarization < 0.35 ∧ t.rotationOrder > 0.65 then "milling"
  else "swarm"

/-- The instantaneous steps-per-second block of `app.py` (lines 294-321):
with a previous frame `(prev_step, prev_tms)` stored in session state and
a current frame `(stepCount, tMs)`, the rate `d_step / d_tms * 1000.0` is
shown only when `d_tms > 0 and d_step >= 0`; otherwise (and when either
previous value is still absent) the report is "n/a", modelled as `none`. -/
def sps_inst (prev_step prev_tms : Option ℤ) (stepCount tMs : ℤ) : Option ℚ :=
  match prev_step, prev_tms with
  | some ps, some pt =>
    let d_step := stepCount - ps
    let d_tms := tMs - pt
    if 0 < d_tms ∧ 0 ≤ d_step then some ((d_step : ℚ) / (d_tms : ℚ) * 1000)
    else none
  | _, _ => none

end BoidsApp

namespace BoidsSweeps

/-- The three named force factors of `sweeps.py`. -/
inductive Factor where
  | attractive : Factor
  | alignment : Factor
  | avoid : Factor
  deriving DecidableEq

/-- `SCALE_ADAPTERS` from `sweeps.py` (as in `1e[SCALE_ADAPT]`). -/
def SCALE_ADAPTERS : Factor → ℤ
  | Factor.attractive => -3
  | Factor.alignment => -2
  | Factor.avoid => -2

/-- The `params` dict handed to `build_js_config`: unscaled UI values. -/
structure Params where
  attractive : ℚ
  alignment : ℚ
  avoid : ℚ
  visual_range : ℚ
  deriving DecidableEq

/-- `DEFAULT_PARAMS` from `sweeps.py` (not scaled). -/
def DEFAULT_PARAMS : Params := ⟨5, 50, 50, 75⟩

/-- `params.copy()` followed by `params[factor] = stop`. -/
def Params.set (p : Params) (f : Factor) (v : ℚ) : Params :=
  match f with
  | Factor.attractive => { p with attractive := v }
  | Factor.alignment => { p with alignment := v }
  | Factor.avoid => { p with avoid := v }

/-- `WIDTH` from `sweeps.py`. -/
def WIDTH : ℤ := 1000

/-- `HEIGHT` from `sweeps.py`. -/
def HEIGHT : ℤ := 1000

/-- `VERBOSE` from `sweeps.py`. -/
def VERBOSE : Bool := true

/-- The JS run configuration built by `build_js_config`. -/
structure JsConfig where
  attractiveFactor : ℚ
  alignmentFactor : ℚ
  avoidFactor : ℚ
  visualRange : ℚ
  numBoids : ℤ
  width : ℤ
  height : ℤ
  steps : ℤ
  verbose : Bool
  deriving DecidableEq

/-- `build_js_config` from `sweeps.py`: scales each factor by
`10 ** SCALE_ADAPTERS[factor]`. -/
def build_js_config (params : Params) (duration : ℤ) (num_boids : ℤ) : JsConfig :=
  { attractiveFactor := params.attractive * (10 : ℚ) ^ SCALE_ADAPTERS Factor.attractive
    alignmentFactor := params.alignment * (10 : ℚ) ^ SCALE_ADAPTERS Factor.alignment
    avoidFactor := params.avoid * (10 : ℚ) ^ SCALE_ADAPTERS Factor.avoid
    visualRange := params.visual_range
    numBoids := num_boids
    width := WIDTH
    height := HEIGHT
    steps := duration
    verbose := VERBOSE }

/-- `np.linspace(0, stop, num)`: `num` evenly spaced values from 0 to
`stop` inclusive (`[0]` when `num = 1`, `[]` when `num = 0`). -/
def linspace (stop : ℚ) (num : ℕ) : List ℚ :=
  if num = 0 then []
  else if num = 1 then [0]
  else (List.range num).map (fun i => stop * (i : ℚ) / ((num : ℚ) - 1))

/-- The OFAT branch of `run_sweep` from `sweeps.py`: the grid is
`np.linspace(0, range_val * 10 ** scale_adapter, granularity)` and each
stop is written (already scaled) into `params[factor]` before
`build_js_config` is applied. -/
def run_sweep_ofat (factor : Factor) (range_val : ℚ) (granularity : ℕ)
    (duration : ℤ) (num_boids : ℤ) : List JsConfig :=
  let scale_adapter := SCALE_ADAPTERS factor
  let sweep_max := range_val * (10 : ℚ) ^ scale_adapter
  let sweep_stops := linspace sweep_max granularity
  sweep_stops.map (fun stop =>
    build_js_config (Params.set DEFAULT_PARAMS factor stop) duration num_boids)

/-- The sweep-running block of `sweeps.py` (lines 220-238) as a state
transition: when `sweep_state` is `"running"` and the stored configs list
is non-empty the component is rendered, and `sweep_state` is set to
`"completed"` exactly when `results is not None`; in every other case
`sweep_state` is left unchanged.  The elements of a result list are
irrelevant to the transition and are modelled as rationals. -/
def sweep_run_block (sweep_state : String) (configs : List JsConfig)
    (results : Option (List ℚ)) : String :=
  if sweep_state = "running" then
    if configs ≠ [] then
      match results with
      | some _ => "completed"
      | none => sweep_state
    else sweep_state
  else sweep_state

end BoidsSweeps

open BoidsApp BoidsSweeps

/-- C4: phase classification returns "polar" iff `Op > 0.65 ∧ Or < 0.35`,
"milling" iff `Op < 0.35 ∧ Or > 0.65`, and "swarm" in every other case;
in particular `classify (0.7, 0.2) = polar`, `classify (0.2, 0.7) =
milling`, `classify (0.5, 0.5) = swarm`, and the boundary values
`classify (0.65, 0.35) = swarm` because both conditions are strict. -/
theorem getShoalPhase_classification :
    (∀ t : ShoalTelemetry,
      (getShoalPhase t = "polar" ↔ t.polarization > 0.65 ∧ t.rotationOrder < 0.35) ∧
      (getShoalPhase t = "milling" ↔ t.polarization < 0.35 ∧ t.rotationOrder > 0.65) ∧
      (getShoalPhase t = "swarm" ↔
        ¬(t.polarization > 0.65 ∧ t.rotationOrder < 0.35) ∧
        ¬(t.polarization < 0.35 ∧ t.rotationOrder > 0.65))) ∧
    getShoalPhase ⟨0.7, 0.2⟩ = "polar" ∧
    getShoalPhase ⟨0.2, 0.7⟩ = "milling" ∧
    getShoalPhase ⟨0.5, 0.5⟩ = "swarm" ∧
    getShoalPhase ⟨0.65, 0.35⟩ = "swarm" := by
  refine ⟨fun t => ?_, by norm_num [getShoalPhase], by norm_num [getShoalPhase],
    by norm_num [getShoalPhase], by norm_num [getShoalPhase]⟩
  unfold getShoalPhase
  split_ifs with h1 h2
  · refine ⟨iff_of_true rfl h1, iff_of_false (by decide) ?_, iff_of_false (by decide) ?_⟩
    · rintro ⟨ha, _⟩
      have := h1.1
      linarith
    · rintro ⟨hn, _⟩
      exact hn h1
  · refine ⟨iff_of_false (by decide) h1, iff_of_true rfl h2, iff_of_false (by decide) ?_⟩
    rintro ⟨_, hn⟩
    exact hn h2
  · exact ⟨iff_of_false (by decide) h1, iff_of_false (by decide) h2,
      iff_of_true rfl ⟨h1, h2⟩⟩

/-- C10: `calculate_eps` ignores its coordinate-extent arguments — the
extents are masked to 1 internally, so the result depends only on `n`. -/
theorem calculate_eps_extent_independent :
    ∀ (n x1 y1 x2 y2 : ℤ), calculate_eps n x1 y1 = calculate_eps n x2 y2 := by
  intro n x1 y1 x2 y2
  rfl

/-- C5: the claim asks that every call with `n ≤ 0` fail explicitly with a
raised, descriptive error.  The code has no guard: at `n = -1` the
radicand `3 / (π·n)` is negative and `np.sqrt` returns a silent NaN (no
error is raised), and at `n = 0` the division itself raises a bare
`ZeroDivisionError`.  This theorem evaluates the code at both inputs. -/
theorem calculate_eps_nonpositive_behaviour :
    calculate_eps (-1) 0 0 = Except.ok FloatVal.nan ∧
    calculate_eps 0 0 0 = Except.error ("ZeroDivisionError: float division by zero") := by
  constructor
  · have hneg : ((1 : ℤ) : ℝ) * ((1 : ℤ) : ℝ) * (MIN_SAMPLES : ℝ) / (Real.pi * ((-1 : ℤ) : ℝ)) < 0 := by
      apply div_neg_of_pos_of_neg
      · norm_num [MIN_SAMPLES]
      · have := Real.pi_pos
        push_cast
        nlinarith
    simp only [calculate_eps, np_sqrt]
    rw [if_neg (show ¬((-1 : ℤ) = 0) by decide), if_pos hneg]
  · rfl

/-- C7: the instantaneous steps-per-second report equals
`(stepCount_now - stepCount_prev) / (tMs_now - tMs_prev) * 1000` whenever
the elapsed time is positive and the step delta non-negative (for
`prev = (10, 1000)`, `curr = (20, 2000)` it is exactly 10); it is
unavailable when no previous frame exists, when the elapsed time is
non-positive, or when the step delta is negative; and it is never a
negative rate. -/
theorem sps_inst_spec :
    (∀ (ps pt s t : ℤ), 0 < t - pt → 0 ≤ s - ps →
      sps_inst (some ps) (some pt) s t = some (((s - ps : ℤ) : ℚ) / ((t - pt : ℤ) : ℚ) * 1000)) ∧
    sps_inst (some 10) (some 1000) 20 2000 = some 10 ∧
    (∀ (ps pt s t : ℤ), t - pt ≤ 0 → sps_inst (some ps) (some pt) s t = none) ∧
    (∀ (ps pt s t : ℤ), s - ps < 0 → sps_inst (some ps) (some pt) s t = none) ∧
    (∀ (o1 o2 : Option ℤ) (s t : ℤ), o1 = none ∨ o2 = none → sps_inst o1 o2 s t = none) ∧
    (∀ (o1 o2 : Option ℤ) (s t : ℤ) (r : ℚ), sps_inst o1 o2 s t = some r → 0 ≤ r) := by
  refine ⟨?_, by norm_num [sps_inst], ?_, ?_, ?_, ?_⟩
  · intro ps pt s t h1 h2
    simp only [sps_inst]
    rw [if_pos ⟨h1, h2⟩]
  · intro ps pt s t h
    simp only [sps_inst]
    rw [if_neg]
    rintro ⟨h1, _⟩
    exact absurd h1 (not_lt.2 h)
  · intro ps pt s t h
    simp only [sps_inst]
    rw [if_neg]
    rintro ⟨_, h2⟩
    exact absurd h2 (not_le.2 h)
  · rintro o1 o2 s t (rfl | rfl)
    · rfl
    · cases o1 <;> rfl
  · intro o1 o2 s t r h
    match o1, o2 with
    | none, _ => exact absurd h (by simp [sps_inst])
    | some ps, none => exact absurd h (by simp [sps_inst])
    | some ps, some pt =>
      simp only [sps_inst] at h
      split_ifs at h with hc
      · obtain ⟨h1, h2⟩ := hc
        obtain rfl : ((s - ps : ℤ) : ℚ) / ((t - pt : ℤ) : ℚ) * 1000 = r := Option.some.inj h
        have hstep : (0 : ℚ) ≤ ((s - ps : ℤ) : ℚ) := by exact_mod_cast h2
        have htms : (0 : ℚ) < ((t - pt : ℤ) : ℚ) := by exact_mod_cast h1
        exact mul_nonneg (div_nonneg hstep htms.le) (by norm_num)

/-- C6 counterexample: with a non-empty config batch, an *empty* result
sequence from the runner advances the sweep state to `"completed"` — the
code only checks `results is not None`, so the claim that an empty
sequence leaves the state at `"running"` is false. -/
theorem sweep_run_block_empty_results_completes :
    sweep_run_block "running" [build_js_config DEFAULT_PARAMS 50 100] (some []) = "completed" ∧
    sweep_run_block "running" [build_js_config DEFAULT_PARAMS 50 100] (some []) ≠ "running" := by
  have h1 : sweep_run_block "running" [build_js_config DEFAULT_PARAMS 50 100] (some [])
      = "completed" := rfl
  refine ⟨h1, ?_⟩
  rw [h1]
  decide

/-- C6 amended: with a non-empty config batch, an absent (`None`) runner
response leaves the sweep state at `"running"` and never advances it to
`"completed"`, while any present result sequence — including the empty
one — advances the state to `"completed"`. -/
theorem sweep_run_block_absent_vs_present (configs : List JsConfig)
    (h : configs ≠ []) (rs : List ℚ) :
    sweep_run_block "running" configs none = "running" ∧
    sweep_run_block "running" configs none ≠ "completed" ∧
    sweep_run_block "running" configs (some rs) = "completed" := by
  refine ⟨?_, ?_, ?_⟩ <;> simp [sweep_run_block, h]

/-- C6 witness: the amended theorem applied to a concrete one-element
batch and the empty result list. -/
theorem sweep_run_block_absent_vs_present_witness :
    ([build_js_config DEFAULT_PARAMS 50 100] : List JsConfig) ≠ [] ∧
    (sweep_run_block "running" [build_js_config DEFAULT_PARAMS 50 100] none = "running" ∧
     sweep_run_block "running" [build_js_config DEFAULT_PARAMS 50 100] none ≠ "completed" ∧
     sweep_run_block "running" [build_js_config DEFAULT_PARAMS 50 100] (some []) = "completed") :=
  ⟨by simp, sweep_run_block_absent_vs_present [build_js_config DEFAULT_PARAMS 50 100] (by simp) []⟩

/-- C1: the claim asks that the value sent to the runner for the swept
factor be the unscaled grid value times `10^scale` *exactly once*.  The
code scales twice: `run_sweep` already multiplies the grid by
`10 ** scale_adapter` before `build_js_config` multiplies the factor by
the same power again.  Evaluating the OFAT attractive sweep at
`range = 100`, `granularity = 5`: the emitted `attractiveFactor` values
are `grid * 10^(-6)`, not the claimed `grid * 10^(-3)`. -/
theorem run_sweep_ofat_attractive_double_scaled :
    (run_sweep_ofat Factor.attractive 100 5 50 100).map (fun c => c.attractiveFactor)
      = [0, 1/40000, 1/20000, 3/40000, 1/10000] ∧
    (run_sweep_ofat Factor.attractive 100 5 50 100).map (fun c => c.attractiveFactor)
      ≠ [0, 1/40, 1/20, 3/40, 1/10] := by
  constructor <;>
    norm_num [run_sweep_ofat, linspace, SCALE_ADAPTERS, build_js_config, Params.set,
      DEFAULT_PARAMS, List.range_succ]

/-- For a positive population the masked extents make the radicand
`MIN_SAMPLES / (π·n)`, which is non-negative, so `calculate_eps` returns
the real square root of it. -/
theorem calculate_eps_of_pos (n x y : ℤ) (hn : 0 < n) :
    calculate_eps n x y =
      Except.ok (FloatVal.val (Real.sqrt ((MIN_SAMPLES : ℝ) / (Real.pi * (n : ℝ))))) := by
  have hden : (0 : ℝ) < Real.pi * (n : ℝ) := mul_pos Real.pi_pos (by exact_mod_cast hn)
  have harg : (0 : ℝ) ≤ ((1 : ℤ) : ℝ) * ((1 : ℤ) : ℝ) * (MIN_SAMPLES : ℝ) / (Real.pi * (n : ℝ)) := by
    apply div_nonneg _ hden.le
    norm_num [MIN_SAMPLES]
  simp only [calculate_eps, np_sqrt]
  rw [if_neg (by omega : ¬ n = 0), if_neg (not_lt.2 harg)]
  norm_num

/-- C8: the recommended clustering radius is
`sqrt(MIN_SAMPLES / (π·n))` with `MIN_SAMPLES = 3`, and it is strictly
decreasing in the population: for `0 < n₁ < n₂` the radius at `n₂` is
strictly below the radius at `n₁`. -/
theorem calculate_eps_strict_anti (n₁ n₂ x y : ℤ) (h₁ : 0 < n₁) (h₂ : n₁ < n₂) :
    calculate_eps n₁ x y =
      Except.ok (FloatVal.val (Real.sqrt ((MIN_SAMPLES : ℝ) / (Real.pi * (n₁ : ℝ))))) ∧
    calculate_eps n₂ x y =
      Except.ok (FloatVal.val (Real.sqrt ((MIN_SAMPLES : ℝ) / (Real.pi * (n₂ : ℝ))))) ∧
    Real.sqrt ((MIN_SAMPLES : ℝ) / (Real.pi * (n₂ : ℝ))) <
      Real.sqrt ((MIN_SAMPLES : ℝ) / (Real.pi * (n₁ : ℝ))) := by
  have hn₂ : (0 : ℤ) < n₂ := lt_trans h₁ h₂
  refine ⟨calculate_eps_of_pos n₁ x y h₁, calculate_eps_of_pos n₂ x y hn₂, ?_⟩
  have hp₁ : (0 : ℝ) < Real.pi * (n₁ : ℝ) := mul_pos Real.pi_pos (by exact_mod_cast h₁)
  apply Real.sqrt_lt_sqrt
  · apply div_nonneg (by norm_num [MIN_SAMPLES])
    have hp₂ : (0 : ℝ) < Real.pi * (n₂ : ℝ) := mul_pos Real.pi_pos (by exact_mod_cast hn₂)
    exact hp₂.le
  · apply div_lt_div_of_pos_left (by norm_num [MIN_SAMPLES]) hp₁
    have hcast : (n₁ : ℝ) < (n₂ : ℝ) := by exact_mod_cast h₂
    exact mul_lt_mul_of_pos_left hcast Real.pi_pos

/-- C8 witness: the strict-antitonicity theorem applied at populations 1
and 2. -/
theorem calculate_eps_strict_anti_witness :
    (0 : ℤ) < 1 ∧ (1 : ℤ) < 2 ∧
    (calculate_eps 1 0 0 =
        Except.ok (FloatVal.val (Real.sqrt ((MIN_SAMPLES : ℝ) / (Real.pi * ((1 : ℤ) : ℝ))))) ∧
      calculate_eps 2 0 0 =
        Except.ok (FloatVal.val (Real.sqrt ((MIN_SAMPLES : ℝ) / (Real.pi * ((2 : ℤ) : ℝ))))) ∧
      Real.sqrt ((MIN_SAMPLES : ℝ) / (Real.pi * ((2 : ℤ) : ℝ))) <
        Real.sqrt ((MIN_SAMPLES : ℝ) / (Real.pi * ((1 : ℤ) : ℝ)))) :=
  ⟨by decide, by decide, calculate_eps_strict_anti 1 2 0 0 (by decide) (by decide)⟩

/-- `bytesToU16` produces one value per byte pair. -/
theorem bytesToU16_length : ∀ raw : List ℕ, (bytesToU16 raw).length = raw.length / 2
  | [] => by simp [bytesToU16]
  | [_] => by simp [bytesToU16]
  | _ :: _ :: rest => by
    simp only [bytesToU16, List.length_cons]
    rw [bytesToU16_length rest]
    omega

/-- `pairUp` produces one pair per element pair. -/
theorem pairUp_length {α : Type} : ∀ l : List α, (pairUp l).length = l.length / 2
  | [] => by simp [pairUp]
  | [_] => by simp [pairUp]
  | _ :: _ :: rest => by
    simp only [pairUp, List.length_cons]
    rw [pairUp_length rest]
    omega

/-- Indexing into `pairUp`: the `i`-th pair is made of elements `2i` and
`2i+1` of the flat list. -/
theorem pairUp_getElem? {α : Type} : ∀ (l : List α) (i : ℕ) (a b : α),
    l[2 * i]? = some a → l[2 * i + 1]? = some b → (pairUp l)[i]? = some (a, b)
  | [], i, a, b => by simp
  | [x], i, a, b => by
    intro h1 h2
    rcases i with _ | j
    · simp at h2
    · rw [List.getElem?_eq_none (by simp; omega)] at h1
      exact absurd h1 (by simp)
  | x :: y :: rest, i, a, b => by
    rcases i with _ | j
    · intro h1 h2
      simp only [Nat.mul_zero, List.getElem?_cons_zero, Nat.zero_add,
        List.getElem?_cons_succ, Option.some.injEq] at h1 h2
      subst h1
      subst h2
      simp [pairUp]
    · intro h1 h2
      have e1 : 2 * (j + 1) = 2 * j + 1 + 1 := by ring
      have e2 : 2 * (j + 1) + 1 = 2 * j + 1 + 1 + 1 := by ring
      rw [e1, List.getElem?_cons_succ, List.getElem?_cons_succ] at h1
      rw [e2, List.getElem?_cons_succ, List.getElem?_cons_succ] at h2
      have ih := pairUp_getElem? rest j a b h1 h2
      simp only [pairUp, List.getElem?_cons_succ]
      exact ih

/-- For a payload whose u16 count is even, the decoder succeeds and
returns the scaled pair list. -/
theorem decode_u16xy_ok (raw : List ℕ) (w h : ℤ) (h4 : raw.length % 4 = 0) :
    decode_u16xy_base64_to_positions_px raw w h =
      Except.ok ((pairUp (bytesToU16 raw)).map (fun p =>
        ((p.1 : ℚ) / 65535 * ((max 1 w : ℤ) : ℚ), (p.2 : ℚ) / 65535 * ((max 1 h : ℤ) : ℚ)))) := by
  unfold decode_u16xy_base64_to_positions_px
  rw [if_neg (by omega), if_neg (by rw [bytesToU16_length]; omega)]

/-- C3: a payload decoding to an odd count of u16 values (byte length
`≡ 2 mod 4`) is a hard decode error naming the odd count; a payload with
an even u16 count (byte length `≡ 0 mod 4`) decodes to exactly
`count / 2 = bytes / 4` pairs, the `i`-th being u16 values `2i` and
`2i+1` scaled by `max(1,w)/65535` and `max(1,h)/65535` respectively. -/
theorem decode_u16xy_parity (raw : List ℕ) (w h : ℤ) :
    (raw.length % 4 = 2 →
      decode_u16xy_base64_to_positions_px raw w h =
        Except.error ("u16xy payload must have even count, got "
          ++ toString (bytesToU16 raw).length)) ∧
    (raw.length % 4 = 0 →
      ∃ l, decode_u16xy_base64_to_positions_px raw w h = Except.ok l ∧
        l.length = raw.length / 4 ∧
        2 * l.length = (bytesToU16 raw).length ∧
        ∀ (i : ℕ) (a b : ℕ), (bytesToU16 raw)[2 * i]? = some a →
          (bytesToU16 raw)[2 * i + 1]? = some b →
          l[i]? = some ((a : ℚ) / 65535 * ((max 1 w : ℤ) : ℚ),
            (b : ℚ) / 65535 * ((max 1 h : ℤ) : ℚ))) := by
  constructor
  · intro h2
    unfold decode_u16xy_base64_to_positions_px
    rw [if_neg (by omega)]
    rw [if_pos (by rw [bytesToU16_length]; omega)]
  · intro h4
    refine ⟨_, decode_u16xy_ok raw w h h4, ?_, ?_, ?_⟩
    · rw [List.length_map, pairUp_length, bytesToU16_length]
      omega
    · rw [List.length_map, pairUp_length, bytesToU16_length]
      omega
    · intro i a b ha hb
      have hp := pairUp_getElem? (bytesToU16 raw) i a b ha hb
      rw [List.getElem?_map, hp]
      rfl

/-- C3 witness: the parity theorem applied to a 2-byte payload (odd u16
count, hard error) and a 4-byte payload (even count, one decoded pair). -/
theorem decode_u16xy_parity_witness :
    (([1, 0] : List ℕ).length % 4 = 2 ∧
      decode_u16xy_base64_to_positions_px [1, 0] 10 10 =
        Except.error ("u16xy payload must have even count, got "
          ++ toString (bytesToU16 [1, 0]).length)) ∧
    (([1, 0, 2, 0] : List ℕ).length % 4 = 0 ∧
      ∃ l, decode_u16xy_base64_to_positions_px [1, 0, 2, 0] 10 10 = Except.ok l ∧
        l.length = ([1, 0, 2, 0] : List ℕ).length / 4 ∧
        2 * l.length = (bytesToU16 [1, 0, 2, 0]).length ∧
        ∀ (i : ℕ) (a b : ℕ), (bytesToU16 [1, 0, 2, 0])[2 * i]? = some a →
          (bytesToU16 [1, 0, 2, 0])[2 * i + 1]? = some b →
          l[i]? = some ((a : ℚ) / 65535 * ((max 1 (10 : ℤ) : ℤ) : ℚ),
            (b : ℚ) / 65535 * ((max 1 (10 : ℤ) : ℤ) : ℚ))) :=
  ⟨⟨by decide, (decode_u16xy_parity [1, 0] 10 10).1 (by decide)⟩,
    ⟨by decide, (decode_u16xy_parity [1, 0, 2, 0] 10 10).2 (by decide)⟩⟩

/-- The right operand of a string append is a substring of the whole. -/
theorem data_infix_append_left (a b : String) : List.IsInfix b.data (a ++ b).data :=
  ⟨a.data, [], by simp⟩

/-- A substring of `a` is a substring of `a ++ b`. -/
theorem data_infix_extend_right (m : List Char) (a b : String)
    (hm : List.IsInfix m a.data) : List.IsInfix m (a ++ b).data := by
  rcases hm with ⟨s, t, hst⟩
  exact ⟨s, t ++ b.data, by rw [String.data_append, ← hst]; simp⟩

/-- The integrity warning is non-empty and textually mentions each of the
six interpolated quantities. -/
theorem integrity_warning_mentions (a : ℤ) (b c : ℕ) (d w h : ℤ) :
    integrity_warning a b c d w h ≠ "" ∧
    List.IsInfix (toString a).data (integrity_warning a b c d w h).data ∧
    List.IsInfix (toString b).data (integrity_warning a b c d w h).data ∧
    List.IsInfix (toString c).data (integrity_warning a b c d w h).data ∧
    List.IsInfix (toString d).data (integrity_warning a b c d w h).data ∧
    List.IsInfix (toString w).data (integrity_warning a b c d w h).data ∧
    List.IsInfix (toString h).data (integrity_warning a b c d w h).data := by
  refine ⟨?_, ?_, ?_, ?_, ?_, ?_, ?_⟩
  · intro hc
    have hlen := congrArg String.length hc
    simp only [integrity_warning, String.length_append] at hlen
    have hpos : 0 < ("Telemetry integrity warning: decoded positions length does not match JS-reported n. ").length := by
      decide
    have hzero : ("" : String).length = 0 := by decide
    omega
  all_goals
    simp only [integrity_warning]
    repeat
      first
        | exact data_infix_append_left _ _
        | apply data_infix_extend_right

/-- C2: for a `u16xy` frame with a well-formed even-length payload, a
present non-negative reported `n` that differs from the decoded pair
count makes `decode_boids_telemetry` return absent positions together
with a non-empty warning mentioning the reported n, the decoded n, the
decoded byte length, the expected byte length `4·n`, and the `w` and `h`
used; no partial positions are returned. -/
theorem decode_boids_telemetry_integrity (raw : List ℕ) (ow oh : Option ℤ) (k : ℤ)
    (hlen : raw.length % 4 = 0) (hk : 0 ≤ k)
    (hmis : ((raw.length / 4 : ℕ) : ℤ) ≠ k) :
    ∃ s, decode_boids_telemetry ⟨some ("u16xy"), some raw, ow, oh, some k⟩ =
        Except.ok ⟨some ("u16xy"), none, none, some s⟩ ∧
      s = integrity_warning k (raw.length / 4) raw.length (4 * k) (ow.getD 1) (oh.getD 1) ∧
      s ≠ "" ∧
      List.IsInfix (toString k).data s.data ∧
      List.IsInfix (toString (raw.length / 4)).data s.data ∧
      List.IsInfix (toString raw.length).data s.data ∧
      List.IsInfix (toString (4 * k)).data s.data ∧
      List.IsInfix (toString (ow.getD 1)).data s.data ∧
      List.IsInfix (toString (oh.getD 1)).data s.data := by
  obtain ⟨hne, hm1, hm2, hm3, hm4, hm5, hm6⟩ :=
    integrity_warning_mentions k (raw.length / 4) raw.length (4 * k) (ow.getD 1) (oh.getD 1)
  refine ⟨_, ?_, rfl, hne, hm1, hm2, hm3, hm4, hm5, hm6⟩
  have hpx := decode_u16xy_ok raw (ow.getD 1) (oh.getD 1) hlen
  have hplen : ((pairUp (bytesToU16 raw)).map (fun p =>
      ((p.1 : ℚ) / 65535 * ((max 1 (ow.getD 1) : ℤ) : ℚ),
        (p.2 : ℚ) / 65535 * ((max 1 (oh.getD 1) : ℤ) : ℚ)))).length = raw.length / 4 := by
    rw [List.length_map, pairUp_length, bytesToU16_length]
    omega
  simp only [decode_boids_telemetry]
  rw [if_neg (by simp)]
  simp only [Option.getD_some, hpx]
  rw [if_pos ⟨hk, by rw [hplen]; exact hmis⟩]
  rw [hplen]

/-- C2 witness: the integrity theorem applied to a 4-byte payload (one
decoded pair) whose frame reports `n = 2`. -/
theorem decode_boids_telemetry_integrity_witness :
    ([0, 0, 0, 0] : List ℕ).length % 4 = 0 ∧ (0 : ℤ) ≤ 2 ∧
      ((([0, 0, 0, 0] : List ℕ).length / 4 : ℕ) : ℤ) ≠ 2 ∧
    (∃ s, decode_boids_telemetry
          ⟨some ("u16xy"), some [0, 0, 0, 0], some 10, some 20, some 2⟩ =
        Except.ok ⟨some ("u16xy"), none, none, some s⟩ ∧
      s = integrity_warning 2 (([0, 0, 0, 0] : List ℕ).length / 4)
        ([0, 0, 0, 0] : List ℕ).length (4 * 2) ((some (10 : ℤ)).getD 1)
        ((some (20 : ℤ)).getD 1) ∧
      s ≠ "" ∧
      List.IsInfix (toString (2 : ℤ)).data s.data ∧
      List.IsInfix (toString (([0, 0, 0, 0] : List ℕ).length / 4)).data s.data ∧
      List.IsInfix (toString ([0, 0, 0, 0] : List ℕ).length).data s.data ∧
      List.IsInfix (toString (4 * (2 : ℤ))).data s.data ∧
      List.IsInfix (toString ((some (10 : ℤ)).getD 1)).data s.data ∧
      List.IsInfix (toString ((some (20 : ℤ)).getD 1)).data s.data) :=
  ⟨by decide, by decide, by decide,
    decode_boids_telemetry_integrity [0, 0, 0, 0] (some 10) (some 20) 2
      (by decide) (by decide) (by decide)⟩

/-- Both components of a pair produced by `pairUp` are elements of the
flat list. -/
theorem pairUp_mem {α : Type} : ∀ (l : List α) (p : α × α), p ∈ pairUp l → p.1 ∈ l ∧ p.2 ∈ l
  | [], p, hp => by simp [pairUp] at hp
  | [x], p, hp => by simp [pairUp] at hp
  | x :: y :: rest, p, hp => by
    simp only [pairUp, List.mem_cons] at hp
    rcases hp with rfl | hp
    · simp
    · have ih := pairUp_mem rest p hp
      exact ⟨by simp [ih.1], by simp [ih.2]⟩

/-- Little-endian u16 values built from genuine bytes are at most 65535. -/
theorem bytesToU16_le : ∀ raw : List ℕ, (∀ b ∈ raw, b < 256) →
    ∀ v ∈ bytesToU16 raw, v ≤ 65535
  | [], _, v, hv => by simp [bytesToU16] at hv
  | [x], _, v, hv => by simp [bytesToU16] at hv
  | b0 :: b1 :: rest, hb, v, hv => by
    simp only [bytesToU16, List.mem_cons] at hv
    rcases hv with rfl | hv
    · have h0 : b0 < 256 := hb b0 (by simp)
      have h1 : b1 < 256 := hb b1 (by simp)
      omega
    · exact bytesToU16_le rest (fun b hbm => hb b (by simp [hbm])) v hv

/-- Every scaled pixel position built from in-range u16 values lies in
the box `[0, max(1,w)] × [0, max(1,h)]`. -/
theorem scaled_positions_bounded (u : List ℕ) (hu : ∀ v ∈ u, v ≤ 65535) (w h : ℤ) :
    ∀ p ∈ (pairUp u).map (fun p =>
        ((p.1 : ℚ) / 65535 * ((max 1 w : ℤ) : ℚ), (p.2 : ℚ) / 65535 * ((max 1 h : ℤ) : ℚ))),
      0 ≤ p.1 ∧ p.1 ≤ ((max 1 w : ℤ) : ℚ) ∧ 0 ≤ p.2 ∧ p.2 ≤ ((max 1 h : ℤ) : ℚ) := by
  have hW : (1 : ℚ) ≤ ((max 1 w : ℤ) : ℚ) := by exact_mod_cast le_max_left 1 w
  have hH : (1 : ℚ) ≤ ((max 1 h : ℤ) : ℚ) := by exact_mod_cast le_max_left 1 h
  have hW0 : (0 : ℚ) ≤ ((max 1 w : ℤ) : ℚ) := le_trans zero_le_one hW
  have hH0 : (0 : ℚ) ≤ ((max 1 h : ℤ) : ℚ) := le_trans zero_le_one hH
  intro p hp
  rcases List.mem_map.1 hp with ⟨q, hq, rfl⟩
  obtain ⟨hq1, hq2⟩ := pairUp_mem u q hq
  have ha : ((q.1 : ℚ)) / 65535 ≤ 1 := by
    rw [div_le_one (by norm_num)]
    exact_mod_cast hu q.1 hq1
  have hb : ((q.2 : ℚ)) / 65535 ≤ 1 := by
    rw [div_le_one (by norm_num)]
    exact_mod_cast hu q.2 hq2
  have ha0 : (0 : ℚ) ≤ (q.1 : ℚ) / 65535 := div_nonneg (Nat.cast_nonneg q.1) (by norm_num)
  have hb0 : (0 : ℚ) ≤ (q.2 : ℚ) / 65535 := div_nonneg (Nat.cast_nonneg q.2) (by norm_num)
  refine ⟨mul_nonneg ha0 hW0, ?_, mul_nonneg hb0 hH0, ?_⟩
  · calc (q.1 : ℚ) / 65535 * ((max 1 w : ℤ) : ℚ)
        ≤ 1 * ((max 1 w : ℤ) : ℚ) := mul_le_mul_of_nonneg_right ha hW0
      _ = ((max 1 w : ℤ) : ℚ) := one_mul _
  · calc (q.2 : ℚ) / 65535 * ((max 1 h : ℤ) : ℚ)
        ≤ 1 * ((max 1 h : ℤ) : ℚ) := mul_le_mul_of_nonneg_right hb hH0
      _ = ((max 1 h : ℤ) : ℚ) := one_mul _

/-- Dividing positions that lie in the box elementwise by the (≥ 1) box
extents puts every coordinate in `[0, 1]`. -/
theorem normalized_positions_bounded (l : List (ℚ × ℚ)) (wq hq : ℚ)
    (hw : 1 ≤ wq) (hh : 1 ≤ hq)
    (hl : ∀ p ∈ l, 0 ≤ p.1 ∧ p.1 ≤ wq ∧ 0 ≤ p.2 ∧ p.2 ≤ hq) :
    ∀ p ∈ l.map (fun p => (p.1 / wq, p.2 / hq)),
      0 ≤ p.1 ∧ p.1 ≤ 1 ∧ 0 ≤ p.2 ∧ p.2 ≤ 1 := by
  have hw0 : (0 : ℚ) < wq := lt_of_lt_of_le zero_lt_one hw
  have hh0 : (0 : ℚ) < hq := lt_of_lt_of_le zero_lt_one hh
  intro p hp
  rcases List.mem_map.1 hp with ⟨q, hq', rfl⟩
  obtain ⟨h1, h2, h3, h4⟩ := hl q hq'
  exact ⟨div_nonneg h1 hw0.le, (div_le_one hw0).2 h2,
    div_nonneg h3 hh0.le, (div_le_one hh0).2 h4⟩

/-- C9: whenever `decode_boids_telemetry` returns non-absent positions,
every coordinate of `positions_px` lies in `[0, max(1,w)] × [0, max(1,h)]`
and every coordinate of `positions_norm` lies exactly within `[0, 1]`. -/
theorem decode_positions_bounded (fmt : Option String) (raw : List ℕ)
    (ow oh onr : Option ℤ) (hbytes : ∀ b ∈ raw, b < 256)
    (res : DecodeResult) (l m : List (ℚ × ℚ))
    (hres : decode_boids_telemetry ⟨fmt, some raw, ow, oh, onr⟩ = Except.ok res)
    (hpx : res.positions_px = some l) (hnorm : res.positions_norm = some m) :
    (∀ p ∈ l, 0 ≤ p.1 ∧ p.1 ≤ ((max 1 (ow.getD 1) : ℤ) : ℚ) ∧
      0 ≤ p.2 ∧ p.2 ≤ ((max 1 (oh.getD 1) : ℤ) : ℚ)) ∧
    (∀ p ∈ m, 0 ≤ p.1 ∧ p.1 ≤ 1 ∧ 0 ≤ p.2 ∧ p.2 ≤ 1) := by
  have hW : (1 : ℚ) ≤ ((max 1 (ow.getD 1) : ℤ) : ℚ) := by
    exact_mod_cast le_max_left 1 (ow.getD 1)
  have hH : (1 : ℚ) ≤ ((max 1 (oh.getD 1) : ℤ) : ℚ) := by
    exact_mod_cast le_max_left 1 (oh.getD 1)
  simp only [decode_boids_telemetry] at hres
  by_cases hfmt : fmt ≠ some ("u16xy")
  · rw [if_pos hfmt] at hres
    obtain rfl := Except.ok.inj hres
    simp at hpx
  · rw [if_neg hfmt] at hres
    split at hres
    · simp at hres
    · rename_i px heq
      simp only [decode_u16xy_base64_to_positions_px] at heq
      split_ifs at heq with hc1 hc2
      obtain rfl := Except.ok.inj heq
      have hpxb := scaled_positions_bounded (bytesToU16 raw)
        (bytesToU16_le raw hbytes) (ow.getD 1) (oh.getD 1)
      split at hres
      · rename_i k hk
        split_ifs at hres with hcond
        · obtain rfl := Except.ok.inj hres
          simp at hpx
        · obtain rfl := Except.ok.inj hres
          simp only [Option.some.injEq] at hpx hnorm
          obtain rfl := hpx
          obtain rfl := hnorm
          exact ⟨hpxb, normalized_positions_bounded _ _ _ hW hH hpxb⟩
      · rename_i hk
        obtain rfl := Except.ok.inj hres
        simp only [Option.some.injEq] at hpx hnorm
        obtain rfl := hpx
        obtain rfl := hnorm
        exact ⟨hpxb, normalized_positions_bounded _ _ _ hW hH hpxb⟩

/-- C9 witness: the bound theorem applied to a concrete all-zero 4-byte
payload decoded against a 10 × 20 surface. -/
theorem decode_positions_bounded_witness :
    (∀ b ∈ ([0, 0, 0, 0] : List ℕ), b < 256) ∧
    decode_boids_telemetry ⟨some ("u16xy"), some [0, 0, 0, 0], some 10, some 20, some 1⟩ =
      Except.ok ⟨some ("u16xy"), some [((0 : ℚ), (0 : ℚ))], some [((0 : ℚ), (0 : ℚ))], none⟩ ∧
    ((∀ p ∈ ([((0 : ℚ), (0 : ℚ))] : List (ℚ × ℚ)),
        0 ≤ p.1 ∧ p.1 ≤ ((max 1 ((some (10 : ℤ)).getD 1) : ℤ) : ℚ) ∧
        0 ≤ p.2 ∧ p.2 ≤ ((max 1 ((some (20 : ℤ)).getD 1) : ℤ) : ℚ)) ∧
      (∀ p ∈ ([((0 : ℚ), (0 : ℚ))] : List (ℚ × ℚ)),
        0 ≤ p.1 ∧ p.1 ≤ 1 ∧ 0 ≤ p.2 ∧ p.2 ≤ 1)) := by
  have hres : decode_boids_telemetry
      ⟨some ("u16xy"), some [0, 0, 0, 0], some 10, some 20, some 1⟩ =
      Except.ok ⟨some ("u16xy"), some [((0 : ℚ), (0 : ℚ))], some [((0 : ℚ), (0 : ℚ))], none⟩ := by
    norm_num [decode_boids_telemetry, decode_u16xy_base64_to_positions_px, bytesToU16, pairUp]
  exact ⟨by decide, hres,
    decode_positions_bounded (some ("u16xy")) [0, 0, 0, 0] (some 10) (some 20) (some 1)
      (by decide) _ _ _ hres rfl rfl⟩

/-- C7 witness: the spec theorem applied at the concrete frames of the
spec's rate-computation example. -/
theorem sps_inst_spec_witness :
    (0 : ℤ) < 2000 - 1000 ∧ (0 : ℤ) ≤ 20 - 10 ∧
    sps_inst (some 10) (some 1000) 20 2000 =
      some (((20 - 10 : ℤ) : ℚ) / ((2000 - 1000 : ℤ) : ℚ) * 1000) :=
  ⟨by decide, by decide, sps_inst_spec.1 10 1000 20 2000 (by decide) (by decide)⟩
